import Mathlib

/-!
Verification of the dendrite server key API resolution subsystem.

The development shallowly embeds the Go code of `serverkeyapi/internal/api.go`
(the Key Ring engine), `serverkeyapi/inthttp/client.go` (the client-side cache
facade) and the event builder helper `truncateAuthAndPrevEvents`.  Go maps are
modelled as association lists with unique keys; Go `map[k]v` assignment is
`kvInsert`, `delete` is `kvErase`, and iteration is a fold over the entry list.
Fallible collaborators (the key database and the key fetchers) are modelled as
functions returning `Option`, with `none` standing for a Go `err != nil`.
-/

namespace Dendrite

/-- A `gomatrixserverlib.PublicKeyLookupRequest`: (server name, key ID). -/
structure PublicKeyLookupRequest where
  serverName : String
  keyID : String
deriving DecidableEq, Repr

/-- `gomatrixserverlib.Timestamp` (milliseconds since epoch, modelled as Nat). -/
abbrev Timestamp := Nat

/-- The sentinel `gomatrixserverlib.PublicKeyNotExpired = Timestamp(0)`. -/
def PublicKeyNotExpired : Timestamp := 0

/-- A `gomatrixserverlib.PublicKeyLookupResult`: key material plus validity data. -/
structure PublicKeyLookupResult where
  verifyKey : String
  validUntilTS : Timestamp
  expiredTS : Timestamp
deriving DecidableEq, Repr

/-- A Go map keyed by `PublicKeyLookupRequest`, as an association list. -/
abbrev KVMap (α : Type) := List (PublicKeyLookupRequest × α)

/-- Map lookup (first entry with the given key). -/
def kvLookup {α : Type} (k : PublicKeyLookupRequest) : KVMap α → Option α
  | [] => none
  | p :: rest => if p.1 = k then some p.2 else kvLookup k rest

/-- Go `delete(m, k)`: drop every entry with key `k`. -/
def kvErase {α : Type} (k : PublicKeyLookupRequest) : KVMap α → KVMap α
  | [] => []
  | p :: rest => if p.1 = k then kvErase k rest else p :: kvErase k rest

/-- Go `m[k] = v`: upsert, replacing any entry with the same key. -/
def kvInsert {α : Type} (k : PublicKeyLookupRequest) (v : α) (m : KVMap α) : KVMap α :=
  (k, v) :: kvErase k m

/-- The keys of the map, in entry order. -/
def kvKeys {α : Type} (m : KVMap α) : List PublicKeyLookupRequest :=
  m.map Prod.fst

/-- Go `for req, res := range b { m[req] = res }`: upsert every entry of `b` into `m`. -/
def upsertAll {α : Type} (b m : KVMap α) : KVMap α :=
  b.foldl (fun acc p => kvInsert p.1 p.2 acc) m

/-- Map well-formedness: keys are pairwise distinct. -/
abbrev kvWF {α : Type} (m : KVMap α) : Prop :=
  (kvKeys m).Nodup

/-! Embedding of the Key Ring engine (`serverkeyapi/internal/api.go`). -/

/-- A Go `context.Context`, as far as this subsystem observes it. -/
structure Ctx where
  cancelled : Bool
deriving DecidableEq, Repr

/-- `context.Background()`: a fresh, never-cancelled context. -/
def backgroundCtx : Ctx := ⟨false⟩

/-- The key database (`KeyRing.KeyDatabase`), with failure-injection flags for
its two fallible operations. -/
structure KeyDB where
  entries : KVMap PublicKeyLookupResult
  readFails : Bool
  writeFails : Bool
deriving Repr

/-- `KeyDatabase.FetchKeys`: the stored entries restricted to the requested
identifiers, or `none` when the read errors. -/
def dbFetchKeys (db : KeyDB) (requests : KVMap Timestamp) :
    Option (KVMap PublicKeyLookupResult) :=
  if db.readFails then none
  else some (db.entries.filter (fun p => (kvLookup p.1 requests).isSome))

/-- `KeyDatabase.StoreKeys`: upsert the given results, or `none` when the
write errors. -/
def dbStoreKeys (db : KeyDB) (results : KVMap PublicKeyLookupResult) : Option KeyDB :=
  if db.writeFails then none
  else some { db with entries := upsertAll results db.entries }

/-- A `gomatrixserverlib.KeyFetcher`: takes the outstanding requests, returns
fetched results or `none` for a Go error. -/
abbrev Fetcher := KVMap Timestamp → Option (KVMap PublicKeyLookupResult)

/-- `gomatrixserverlib.KeyRing` as held by `ServerKeyAPI.OurKeyRing`. -/
structure KeyRing where
  keyDatabase : KeyDB
  keyFetchers : List Fetcher

/-- The loop over `dbResults` in `ServerKeyAPI.FetchKeys` (api.go lines 50-58):
entries past `ValidUntilTS` whose expiry marker is the not-expired sentinel are
skipped; every other entry is added to `results` and deleted from `requests`. -/
def addDBResults (now : Timestamp) :
    List (PublicKeyLookupRequest × PublicKeyLookupResult) →
    KVMap PublicKeyLookupResult × KVMap Timestamp →
    KVMap PublicKeyLookupResult × KVMap Timestamp
  | [], st => st
  | (req, res) :: rest, (results, requests) =>
    if now > res.validUntilTS ∧ res.expiredTS = PublicKeyNotExpired then
      addDBResults now rest (results, requests)
    else
      addDBResults now rest (kvInsert req res results, kvErase req requests)

/-- The store-consultation phase of `ServerKeyAPI.FetchKeys` (api.go lines
47-59): a failed read is skipped over (`err == nil` guard), leaving results
empty and every request outstanding. -/
def dbPhase (db : KeyDB) (now : Timestamp) (requests : KVMap Timestamp) :
    KVMap PublicKeyLookupResult × KVMap Timestamp :=
  match dbFetchKeys db requests with
  | some dbResults => addDBResults now dbResults ([], requests)
  | none => ([], requests)

/-- The merge loop over one fetcher's results (api.go lines 69-72). -/
def addFetcherResults :
    List (PublicKeyLookupRequest × PublicKeyLookupResult) →
    KVMap PublicKeyLookupResult × KVMap Timestamp →
    KVMap PublicKeyLookupResult × KVMap Timestamp
  | [], st => st
  | (req, res) :: rest, (results, requests) =>
    addFetcherResults rest (kvInsert req res results, kvErase req requests)

/-- The two distinct errors `ServerKeyAPI.FetchKeys` can return. -/
inductive KeyFetchError where
  | storeFailed
  | fetchFailed (count : Nat)
deriving DecidableEq, Repr

/-- Everything observable about one `ServerKeyAPI.FetchKeys` call: the returned
map (`none` models Go `nil`), the returned error, the caller's `requests` map
after the call (it is mutated in place), the database state after the call, and
the trace of fetcher invocations (each fetcher actually called, paired with the
outstanding requests passed to it, in call order). -/
structure FetchOutcome where
  results : Option (KVMap PublicKeyLookupResult)
  fetchError : Option KeyFetchError
  requests : KVMap Timestamp
  db : KeyDB
  trace : List (Fetcher × KVMap Timestamp)

/-- The return block of `ServerKeyAPI.FetchKeys` (api.go lines 78-84): error
reporting the count of outstanding requests, if any. -/
def finishFetch (db : KeyDB) (results : KVMap PublicKeyLookupResult)
    (requests : KVMap Timestamp) : FetchOutcome :=
  if requests.isEmpty then ⟨some results, none, requests, db, []⟩
  else ⟨some results, some (.fetchFailed requests.length), requests, db, []⟩

/-- The fetcher waterfall of `ServerKeyAPI.FetchKeys` (api.go lines 62-77):
break once `requests` is empty; a fetcher error falls through to the next
fetcher; successful results are merged and immediately persisted, a failed
persist returning `nil` plus a hard error. -/
def runFetchers (db : KeyDB) :
    List Fetcher → KVMap PublicKeyLookupResult → KVMap Timestamp → FetchOutcome
  | [], results, requests => finishFetch db results requests
  | f :: fs, results, requests =>
    if requests.isEmpty then finishFetch db results requests
    else
      match f requests with
      | none =>
        let o := runFetchers db fs results requests
        { o with trace := (f, requests) :: o.trace }
      | some fetcherResults =>
        let st := addFetcherResults fetcherResults (results, requests)
        match dbStoreKeys db fetcherResults with
        | none => ⟨none, some .storeFailed, st.2, db, [(f, requests)]⟩
        | some db2 =>
          let o := runFetchers db2 fs st.1 st.2
          { o with trace := (f, requests) :: o.trace }

/-- `ServerKeyAPI.FetchKeys` (api.go lines 36-85).  The caller-supplied context
is bound to `_` in the source and replaced by `context.Background()`, so it is
ignored here too. -/
def fetchKeys (_ctx : Ctx) (s : KeyRing) (now : Timestamp)
    (requests : KVMap Timestamp) : FetchOutcome :=
  let st := dbPhase s.keyDatabase now requests
  runFetchers s.keyDatabase s.keyFetchers st.1 st.2

/-- `ServerKeyAPI.StoreKeys` (api.go lines 25-34): a plain store write on a
background context, ignoring the caller's context. -/
def storeKeys (_ctx : Ctx) (s : KeyRing) (results : KVMap PublicKeyLookupResult) :
    Option KeyDB :=
  dbStoreKeys s.keyDatabase results

/-! Embedding of the client-side cache facade (`serverkeyapi/inthttp/client.go`). -/

/-- The local-cache loop of `httpServerKeyInternalAPI.FetchKeys` (client.go
lines 93-104): valid cache hits are answered into `result`; cache misses are
collected into the remote batch `sent`; a stale, not-explicitly-expired cache
hit takes the inner `continue` and lands in neither. -/
def facadeLocal (now : Timestamp) (cache : KVMap PublicKeyLookupResult) :
    List (PublicKeyLookupRequest × Timestamp) →
    KVMap PublicKeyLookupResult × KVMap Timestamp →
    KVMap PublicKeyLookupResult × KVMap Timestamp
  | [], st => st
  | (req, ts) :: rest, (result, sent) =>
    match kvLookup req cache with
    | some res =>
      if now > res.validUntilTS ∧ res.expiredTS = PublicKeyNotExpired then
        facadeLocal now cache rest (result, sent)
      else
        facadeLocal now cache rest (kvInsert req res result, sent)
    | none => facadeLocal now cache rest (result, kvInsert req ts sent)

/-- The response merge loop of `httpServerKeyInternalAPI.FetchKeys` (client.go
lines 109-112): every returned result goes into the output and, unconditionally,
into the local cache. -/
def mergeResponse :
    List (PublicKeyLookupRequest × PublicKeyLookupResult) →
    KVMap PublicKeyLookupResult × KVMap PublicKeyLookupResult →
    KVMap PublicKeyLookupResult × KVMap PublicKeyLookupResult
  | [], st => st
  | (req, res) :: rest, (result, cache) =>
    mergeResponse rest (kvInsert req res result, kvInsert req res cache)

/-- Everything observable about one facade `FetchKeys` call: the returned map
(`none` models Go `nil` on a remote error), the cache after the call, and the
batch of requests sent across the remote call boundary. -/
structure FacadeOutcome where
  result : Option (KVMap PublicKeyLookupResult)
  cache : KVMap PublicKeyLookupResult
  sent : KVMap Timestamp
deriving DecidableEq, Repr

/-- `httpServerKeyInternalAPI.FetchKeys` (client.go lines 79-114).  `remote`
stands for the `QueryPublicKeys` round trip; `none` is a transport error, which
is propagated as `(nil, err)` before any cache update. -/
def facadeFetchKeys (_ctx : Ctx)
    (remote : KVMap Timestamp → Option (KVMap PublicKeyLookupResult))
    (now : Timestamp) (cache : KVMap PublicKeyLookupResult)
    (requests : KVMap Timestamp) : FacadeOutcome :=
  let st := facadeLocal now cache requests ([], [])
  match remote st.2 with
  | none => ⟨none, cache, st.2⟩
  | some resp =>
    let merged := mergeResponse resp (st.1, cache)
    ⟨some merged.1, merged.2, st.2⟩

/-- `httpServerKeyInternalAPI.StoreKeys` (client.go lines 61-77): every result
is written into the local cache while the forwarded batch is assembled, then the
full batch is sent remotely (`InputPublicKeys`) on a background context.
Returns the new cache and the remote call's outcome. -/
def facadeStoreKeys (_ctx : Ctx)
    (remoteStore : KVMap PublicKeyLookupResult → Option Unit)
    (cache : KVMap PublicKeyLookupResult)
    (results : KVMap PublicKeyLookupResult) :
    KVMap PublicKeyLookupResult × Option Unit :=
  (upsertAll results cache, remoteStore results)

/-! Embedding of the event builder truncation (`internal/eventbuilder`). -/

/-- A `gomatrixserverlib.EventReference`: event ID plus content hash. -/
structure EventReference where
  eventID : String
  eventSHA256 : String
deriving DecidableEq, Repr

/-- `truncateAuthAndPrevEvents`: cap auth events at 10 and prev events at 20,
keeping a prefix, exactly as the two `if` statements in the source do. -/
def truncateAuthAndPrevEvents (auth prev : List EventReference) :
    List EventReference × List EventReference :=
  (if auth.length > 10 then auth.take 10 else auth,
   if prev.length > 20 then prev.take 20 else prev)

/-- The split of a batch's identifiers into resolved and outstanding, as
maintained by the Key Ring `FetchKeys` loops: outstanding requests all come
from the original batch, no identifier is both resolved and outstanding, and
every original identifier is one or the other. -/
def ResolvedSplit (init : List PublicKeyLookupRequest)
    (rs : KVMap PublicKeyLookupResult) (qs : KVMap Timestamp) : Prop :=
  (∀ k, k ∈ kvKeys qs → k ∈ init) ∧
  (∀ k, k ∈ kvKeys rs → k ∉ kvKeys qs) ∧
  (∀ k, k ∈ init → k ∈ kvKeys qs ∨ k ∈ kvKeys rs)

/-- Sample identifier used by the concrete witnesses below. -/
def sampleReq : PublicKeyLookupRequest := ⟨"remote.example", "ed25519:1"⟩

/-- A second, distinct sample identifier. -/
def sampleReq2 : PublicKeyLookupRequest := ⟨"other.example", "ed25519:2"⟩

/-- A result valid until T=100 with no explicit expiry marker. -/
def sampleRes : PublicKeyLookupResult := ⟨"key-material", 100, PublicKeyNotExpired⟩

/-- A result valid until T=100 that was explicitly expired at T=90. -/
def sampleExpiredRes : PublicKeyLookupResult := ⟨"fresh-key-material", 100, 90⟩

/-- A database holding `sampleRes` under `sampleReq`, reads and writes reliable. -/
def sampleDB : KeyDB := ⟨[(sampleReq, sampleRes)], false, false⟩

/-- A fetcher that always resolves `sampleReq` to `sampleExpiredRes`. -/
def sampleFetcher : Fetcher := fun _ => some [(sampleReq, sampleExpiredRes)]

/-- A sample event reference used by the C9 witness. -/
def sampleRef : EventReference := ⟨"$event1:server", "hash1"⟩

/-- A fetcher that always reports an error. -/
def failingFetcher : Fetcher := fun _ => none

/-! Lemma development. -/

@[simp] theorem kvLookup_nil {α : Type} (k : PublicKeyLookupRequest) :
    kvLookup (α := α) k [] = none := rfl

theorem kvLookup_cons {α : Type} (k : PublicKeyLookupRequest) (p : PublicKeyLookupRequest × α)
    (m : KVMap α) :
    kvLookup k (p :: m) = if p.1 = k then some p.2 else kvLookup k m := rfl

@[simp] theorem kvLookup_kvErase {α : Type} (k k' : PublicKeyLookupRequest) (m : KVMap α) :
    kvLookup k (kvErase k' m) = if k' = k then none else kvLookup k m := by
  induction m with
  | nil => simp [kvErase]
  | cons p rest ih =>
    by_cases hpk : p.1 = k'
    · simp only [kvErase, if_pos hpk, ih]
      by_cases hk : k' = k
      · simp [hk]
      · have hp1 : ¬ p.1 = k := by
          rw [hpk]
          exact hk
        rw [if_neg hk, if_neg hk, kvLookup_cons, if_neg hp1]
    · simp only [kvErase, if_neg hpk, kvLookup_cons]
      by_cases hp1 : p.1 = k
      · have hk : ¬ k' = k := fun h => hpk (hp1.trans h.symm)
        rw [if_pos hp1, if_neg hk, if_pos hp1]
      · rw [if_neg hp1, ih]
        by_cases hk : k' = k
        · simp [hk, hp1]
        · rw [if_neg hk, if_neg hk, if_neg hp1]

@[simp] theorem kvLookup_kvInsert {α : Type} (k k' : PublicKeyLookupRequest) (v : α)
    (m : KVMap α) :
    kvLookup k (kvInsert k' v m) = if k' = k then some v else kvLookup k m := by
  by_cases h : k' = k <;> simp [kvInsert, kvLookup_cons, h]

theorem mem_kvKeys_iff {α : Type} (k : PublicKeyLookupRequest) (m : KVMap α) :
    k ∈ kvKeys m ↔ (kvLookup k m).isSome := by
  induction m with
  | nil => simp [kvKeys]
  | cons p rest ih =>
    by_cases h : p.1 = k
    · simp [kvKeys, kvLookup_cons, h]
    · rw [kvKeys, List.map_cons, List.mem_cons, kvLookup_cons, if_neg h]
      constructor
      · rintro (h1 | h2)
        · exact absurd h1.symm h
        · exact ih.mp h2
      · intro hs
        exact Or.inr (ih.mpr hs)

theorem kvErase_sublist {α : Type} (k : PublicKeyLookupRequest) (m : KVMap α) :
    List.Sublist (kvErase k m) m := by
  induction m with
  | nil => simp [kvErase]
  | cons p rest ih =>
    by_cases hpk : p.1 = k
    · simp only [kvErase, if_pos hpk]
      exact ih.trans (List.sublist_cons_self p rest)
    · simp only [kvErase, if_neg hpk]
      exact List.Sublist.cons₂ p ih

theorem kvKeys_kvErase_sublist {α : Type} (k : PublicKeyLookupRequest) (m : KVMap α) :
    List.Sublist (kvKeys (kvErase k m)) (kvKeys m) :=
  (kvErase_sublist k m).map Prod.fst

theorem not_mem_kvKeys_kvErase {α : Type} (k : PublicKeyLookupRequest) (m : KVMap α) :
    k ∉ kvKeys (kvErase k m) := by
  intro h
  rw [mem_kvKeys_iff] at h
  simp at h

theorem kvWF_kvErase {α : Type} (k : PublicKeyLookupRequest) {m : KVMap α} (h : kvWF m) :
    kvWF (kvErase k m) :=
  List.Nodup.sublist (kvKeys_kvErase_sublist k m) h

theorem kvWF_kvInsert {α : Type} (k : PublicKeyLookupRequest) (v : α) {m : KVMap α}
    (h : kvWF m) : kvWF (kvInsert k v m) := by
  refine List.Nodup.cons ?_ (kvWF_kvErase k h)
  exact not_mem_kvKeys_kvErase k m

theorem kvLookup_eq_some_of_mem {α : Type} {k : PublicKeyLookupRequest} {v : α} {m : KVMap α}
    (hwf : kvWF m) (hmem : (k, v) ∈ m) : kvLookup k m = some v := by
  induction m with
  | nil => cases hmem
  | cons p rest ih =>
    have hwf' : kvWF rest := (List.nodup_cons.mp hwf).2
    rcases List.mem_cons.mp hmem with h | h
    · rw [← h]
      simp [kvLookup_cons]
    · have hlk : kvLookup k rest = some v := ih hwf' h
      have hk : p.1 ≠ k := by
        intro hEq
        have hmemk : k ∈ kvKeys rest := by
          rw [mem_kvKeys_iff, hlk]
          rfl
        exact (List.nodup_cons.mp hwf).1 (hEq ▸ hmemk)
      rw [kvLookup_cons, if_neg hk, hlk]

theorem mem_of_kvLookup_eq_some {α : Type} {k : PublicKeyLookupRequest} {v : α} {m : KVMap α}
    (h : kvLookup k m = some v) : (k, v) ∈ m := by
  induction m with
  | nil => simp [kvLookup] at h
  | cons p rest ih =>
    rw [kvLookup_cons] at h
    by_cases hk : p.1 = k
    · rw [if_pos hk] at h
      refine List.mem_cons.mpr (Or.inl ?_)
      rw [Prod.ext_iff]
      exact ⟨hk.symm, by injection h with h2; exact h2.symm⟩
    · rw [if_neg hk] at h
      exact List.mem_cons.mpr (Or.inr (ih h))

theorem kvLookup_filter {α : Type} (p : PublicKeyLookupRequest × α → Bool)
    {m : KVMap α} (hwf : kvWF m) (k : PublicKeyLookupRequest) :
    kvLookup k (m.filter p) =
      match kvLookup k m with
      | some v => if p (k, v) then some v else none
      | none => none := by
  induction m with
  | nil => simp
  | cons q rest ih =>
    have hwf' : kvWF rest := (List.nodup_cons.mp hwf).2
    by_cases hk : q.1 = k
    · have hknot : k ∉ kvKeys rest := by
        intro hmem
        exact (List.nodup_cons.mp hwf).1 (hk ▸ hmem)
      have hnone : kvLookup k rest = none := by
        by_contra hne
        exact hknot ((mem_kvKeys_iff k rest).mpr (Option.isSome_iff_ne_none.mpr hne))
      have hq : (k, q.2) = q := by
        rw [Prod.ext_iff]
        exact ⟨hk.symm, rfl⟩
      by_cases hp : p q
      · rw [List.filter_cons_of_pos hp, kvLookup_cons, if_pos hk, kvLookup_cons, if_pos hk]
        simp [hq, hp]
      · rw [List.filter_cons_of_neg hp, ih hwf', hnone, kvLookup_cons, if_pos hk]
        simp [hq, hp]
    · by_cases hp : p q
      · rw [List.filter_cons_of_pos hp, kvLookup_cons, if_neg hk, ih hwf', kvLookup_cons,
          if_neg hk]
      · rw [List.filter_cons_of_neg hp, ih hwf', kvLookup_cons, if_neg hk]

theorem upsertAll_nil {α : Type} (m : KVMap α) : upsertAll [] m = m := rfl

theorem upsertAll_cons {α : Type} (p : PublicKeyLookupRequest × α) (b m : KVMap α) :
    upsertAll (p :: b) m = upsertAll b (kvInsert p.1 p.2 m) := rfl

theorem kvWF_upsertAll {α : Type} (b : KVMap α) {m : KVMap α} (h : kvWF m) :
    kvWF (upsertAll b m) := by
  induction b generalizing m with
  | nil => exact h
  | cons p rest ih => exact ih (kvWF_kvInsert p.1 p.2 h)

theorem kvLookup_upsertAll_of_not_mem {α : Type} {k : PublicKeyLookupRequest} :
    ∀ (b m : KVMap α), k ∉ kvKeys b → kvLookup k (upsertAll b m) = kvLookup k m
  | [], _, _ => rfl
  | p :: rest, m, h => by
    have hne : p.1 ≠ k := by
      intro hEq
      exact h (by simp [kvKeys, hEq])
    have hk : k ∉ kvKeys rest := by
      intro hmem
      refine h ?_
      rw [kvKeys, List.map_cons, List.mem_cons]
      exact Or.inr hmem
    rw [upsertAll_cons, kvLookup_upsertAll_of_not_mem rest _ hk]
    simp [hne]

theorem kvLookup_upsertAll_of_some {α : Type} {k : PublicKeyLookupRequest} {v : α} :
    ∀ (b m : KVMap α), kvWF b → kvLookup k b = some v → kvLookup k (upsertAll b m) = some v
  | [], _, _, h => by simp at h
  | p :: rest, m, hwf, h => by
    have hwf' : kvWF rest := (List.nodup_cons.mp hwf).2
    rw [kvLookup_cons] at h
    by_cases hk : p.1 = k
    · rw [if_pos hk] at h
      have hknot : k ∉ kvKeys rest := by
        intro hmem
        exact (List.nodup_cons.mp hwf).1 (hk ▸ hmem)
      rw [upsertAll_cons, kvLookup_upsertAll_of_not_mem rest _ hknot]
      simp [hk, h]
    · rw [if_neg hk] at h
      rw [upsertAll_cons]
      exact kvLookup_upsertAll_of_some rest _ hwf' h

theorem mem_kvKeys_kvInsert {α : Type} (k k' : PublicKeyLookupRequest) (v : α) (m : KVMap α) :
    k ∈ kvKeys (kvInsert k' v m) ↔ k = k' ∨ k ∈ kvKeys (kvErase k' m) := by
  rw [kvInsert, kvKeys, List.map_cons, List.mem_cons]
  rfl

theorem mem_kvKeys_kvErase {α : Type} (k k' : PublicKeyLookupRequest) (m : KVMap α) :
    k ∈ kvKeys (kvErase k' m) ↔ k ≠ k' ∧ k ∈ kvKeys m := by
  rw [mem_kvKeys_iff, mem_kvKeys_iff, kvLookup_kvErase]
  by_cases h : k' = k
  · simp [h]
  · have hk : k ≠ k' := fun hEq => h hEq.symm
    simp [h, hk]

theorem eq_nil_of_kvLookup_eq_none {α : Type} {m : KVMap α}
    (h : ∀ k, kvLookup k m = none) : m = [] := by
  cases m with
  | nil => rfl
  | cons p rest =>
    have := h p.1
    rw [kvLookup_cons, if_pos rfl] at this
    cases this

theorem mem_kvKeys_exists {α : Type} (k : PublicKeyLookupRequest) (m : KVMap α) :
    k ∈ kvKeys m ↔ ∃ v, (k, v) ∈ m := by
  rw [kvKeys, List.mem_map]
  constructor
  · rintro ⟨p, hp, hk⟩
    exact ⟨p.2, by rw [show ((k, p.2) = p) from Prod.ext_iff.mpr ⟨hk.symm, rfl⟩]; exact hp⟩
  · rintro ⟨v, hv⟩
    exact ⟨(k, v), hv, rfl⟩

theorem addDBResults_lookup_of_not_mem (now : Timestamp) {k : PublicKeyLookupRequest} :
    ∀ (L : List (PublicKeyLookupRequest × PublicKeyLookupResult))
      (rs : KVMap PublicKeyLookupResult) (qs : KVMap Timestamp),
      k ∉ kvKeys L →
      kvLookup k (addDBResults now L (rs, qs)).1 = kvLookup k rs ∧
      kvLookup k (addDBResults now L (rs, qs)).2 = kvLookup k qs
  | [], _, _, _ => ⟨rfl, rfl⟩
  | (req, res) :: rest, rs, qs, h => by
    have hne : req ≠ k := fun hEq => h (by simp [kvKeys, hEq])
    have hk : k ∉ kvKeys rest := by
      intro hmem
      refine h ?_
      rw [kvKeys, List.map_cons, List.mem_cons]
      exact Or.inr hmem
    by_cases hc : now > res.validUntilTS ∧ res.expiredTS = PublicKeyNotExpired
    · simp only [addDBResults, if_pos hc]
      exact addDBResults_lookup_of_not_mem now rest rs qs hk
    · simp only [addDBResults, if_neg hc]
      have hrec := addDBResults_lookup_of_not_mem now rest (kvInsert req res rs)
        (kvErase req qs) hk
      rw [hrec.1, hrec.2]
      constructor
      · simp [hne]
      · simp [hne]

theorem addDBResults_lookup_of_mem_use (now : Timestamp) {k : PublicKeyLookupRequest}
    {res : PublicKeyLookupResult} :
    ∀ (L : List (PublicKeyLookupRequest × PublicKeyLookupResult))
      (rs : KVMap PublicKeyLookupResult) (qs : KVMap Timestamp),
      kvWF L → (k, res) ∈ L →
      ¬ (now > res.validUntilTS ∧ res.expiredTS = PublicKeyNotExpired) →
      kvLookup k (addDBResults now L (rs, qs)).1 = some res ∧
      kvLookup k (addDBResults now L (rs, qs)).2 = none
  | [], _, _, _, hmem, _ => absurd hmem (List.not_mem_nil _)
  | (req, res') :: rest, rs, qs, hwf, hmem, hc => by
    have hwf' : kvWF rest := (List.nodup_cons.mp hwf).2
    rcases List.mem_cons.mp hmem with h | h
    · rw [Prod.mk.injEq] at h
      obtain ⟨h1, h2⟩ := h
      subst h1
      subst h2
      have hknot : k ∉ kvKeys rest := (List.nodup_cons.mp hwf).1
      simp only [addDBResults, if_neg hc]
      have hrec := addDBResults_lookup_of_not_mem now rest (kvInsert k res rs)
        (kvErase k qs) hknot
      rw [hrec.1, hrec.2]
      constructor
      · simp
      · simp
    · have hkmem : k ∈ kvKeys rest := (mem_kvKeys_exists k rest).mpr ⟨res, h⟩
      have hne : req ≠ k := fun hEq => (List.nodup_cons.mp hwf).1 (hEq ▸ hkmem)
      by_cases hc' : now > res'.validUntilTS ∧ res'.expiredTS = PublicKeyNotExpired
      · simp only [addDBResults, if_pos hc']
        exact addDBResults_lookup_of_mem_use now rest rs qs hwf' h hc
      · simp only [addDBResults, if_neg hc']
        exact addDBResults_lookup_of_mem_use now rest (kvInsert req res' rs)
          (kvErase req qs) hwf' h hc

theorem addDBResults_lookup_of_mem_skip (now : Timestamp) {k : PublicKeyLookupRequest}
    {res : PublicKeyLookupResult} :
    ∀ (L : List (PublicKeyLookupRequest × PublicKeyLookupResult))
      (rs : KVMap PublicKeyLookupResult) (qs : KVMap Timestamp),
      kvWF L → (k, res) ∈ L →
      (now > res.validUntilTS ∧ res.expiredTS = PublicKeyNotExpired) →
      kvLookup k (addDBResults now L (rs, qs)).1 = kvLookup k rs ∧
      kvLookup k (addDBResults now L (rs, qs)).2 = kvLookup k qs
  | [], _, _, _, hmem, _ => absurd hmem (List.not_mem_nil _)
  | (req, res') :: rest, rs, qs, hwf, hmem, hc => by
    have hwf' : kvWF rest := (List.nodup_cons.mp hwf).2
    rcases List.mem_cons.mp hmem with h | h
    · rw [Prod.mk.injEq] at h
      obtain ⟨h1, h2⟩ := h
      subst h1
      subst h2
      have hknot : k ∉ kvKeys rest := (List.nodup_cons.mp hwf).1
      simp only [addDBResults, if_pos hc]
      exact addDBResults_lookup_of_not_mem now rest rs qs hknot
    · have hkmem : k ∈ kvKeys rest := (mem_kvKeys_exists k rest).mpr ⟨res, h⟩
      have hne : req ≠ k := fun hEq => (List.nodup_cons.mp hwf).1 (hEq ▸ hkmem)
      by_cases hc' : now > res'.validUntilTS ∧ res'.expiredTS = PublicKeyNotExpired
      · simp only [addDBResults, if_pos hc']
        exact addDBResults_lookup_of_mem_skip now rest rs qs hwf' h hc
      · simp only [addDBResults, if_neg hc']
        have hrec := addDBResults_lookup_of_mem_skip now rest (kvInsert req res' rs)
          (kvErase req qs) hwf' h hc
        rw [hrec.1, hrec.2]
        constructor
        · simp [hne]
        · simp [hne]

theorem addFetcherResults_lookup_of_not_mem {k : PublicKeyLookupRequest} :
    ∀ (L : List (PublicKeyLookupRequest × PublicKeyLookupResult))
      (rs : KVMap PublicKeyLookupResult) (qs : KVMap Timestamp),
      k ∉ kvKeys L →
      kvLookup k (addFetcherResults L (rs, qs)).1 = kvLookup k rs ∧
      kvLookup k (addFetcherResults L (rs, qs)).2 = kvLookup k qs
  | [], _, _, _ => ⟨rfl, rfl⟩
  | (req, res) :: rest, rs, qs, h => by
    have hne : req ≠ k := fun hEq => h (by simp [kvKeys, hEq])
    have hk : k ∉ kvKeys rest := by
      intro hmem
      refine h ?_
      rw [kvKeys, List.map_cons, List.mem_cons]
      exact Or.inr hmem
    simp only [addFetcherResults]
    have hrec := addFetcherResults_lookup_of_not_mem rest (kvInsert req res rs)
      (kvErase req qs) hk
    rw [hrec.1, hrec.2]
    constructor
    · simp [hne]
    · simp [hne]

theorem addFetcherResults_lookup_of_mem {k : PublicKeyLookupRequest}
    {res : PublicKeyLookupResult} :
    ∀ (L : List (PublicKeyLookupRequest × PublicKeyLookupResult))
      (rs : KVMap PublicKeyLookupResult) (qs : KVMap Timestamp),
      kvWF L → (k, res) ∈ L →
      kvLookup k (addFetcherResults L (rs, qs)).1 = some res ∧
      kvLookup k (addFetcherResults L (rs, qs)).2 = none
  | [], _, _, _, hmem => absurd hmem (List.not_mem_nil _)
  | (req, res') :: rest, rs, qs, hwf, hmem => by
    have hwf' : kvWF rest := (List.nodup_cons.mp hwf).2
    rcases List.mem_cons.mp hmem with h | h
    · rw [Prod.mk.injEq] at h
      obtain ⟨h1, h2⟩ := h
      subst h1
      subst h2
      have hknot : k ∉ kvKeys rest := (List.nodup_cons.mp hwf).1
      simp only [addFetcherResults]
      have hrec := addFetcherResults_lookup_of_not_mem rest (kvInsert k res rs)
        (kvErase k qs) hknot
      rw [hrec.1, hrec.2]
      constructor
      · simp
      · simp
    · simp only [addFetcherResults]
      exact addFetcherResults_lookup_of_mem rest (kvInsert req res' rs)
        (kvErase req qs) hwf' h


theorem facadeLocal_lookup_of_not_mem (now : Timestamp) (cache : KVMap PublicKeyLookupResult)
    {k : PublicKeyLookupRequest} :
    ∀ (L : List (PublicKeyLookupRequest × Timestamp))
      (rs : KVMap PublicKeyLookupResult) (sent : KVMap Timestamp),
      k ∉ kvKeys L →
      kvLookup k (facadeLocal now cache L (rs, sent)).1 = kvLookup k rs ∧
      kvLookup k (facadeLocal now cache L (rs, sent)).2 = kvLookup k sent
  | [], _, _, _ => ⟨rfl, rfl⟩
  | (req, ts) :: rest, rs, sent, h => by
    have hne : req ≠ k := fun hEq => h (by simp [kvKeys, hEq])
    have hk : k ∉ kvKeys rest := by
      intro hmem
      refine h ?_
      rw [kvKeys, List.map_cons, List.mem_cons]
      exact Or.inr hmem
    cases hcache : kvLookup req cache with
    | some res =>
      by_cases hc : now > res.validUntilTS ∧ res.expiredTS = PublicKeyNotExpired
      · simp only [facadeLocal, hcache, if_pos hc]
        exact facadeLocal_lookup_of_not_mem now cache rest rs sent hk
      · simp only [facadeLocal, hcache, if_neg hc]
        have hrec := facadeLocal_lookup_of_not_mem now cache rest (kvInsert req res rs) sent hk
        rw [hrec.1, hrec.2]
        exact ⟨by simp [hne], rfl⟩
    | none =>
      simp only [facadeLocal, hcache]
      have hrec := facadeLocal_lookup_of_not_mem now cache rest rs (kvInsert req ts sent) hk
      rw [hrec.1, hrec.2]
      exact ⟨rfl, by simp [hne]⟩

theorem facadeLocal_lookup_hit_use (now : Timestamp) (cache : KVMap PublicKeyLookupResult)
    {k : PublicKeyLookupRequest} {ts : Timestamp} {res : PublicKeyLookupResult} :
    ∀ (L : List (PublicKeyLookupRequest × Timestamp))
      (rs : KVMap PublicKeyLookupResult) (sent : KVMap Timestamp),
      kvWF L → (k, ts) ∈ L → kvLookup k cache = some res →
      ¬ (now > res.validUntilTS ∧ res.expiredTS = PublicKeyNotExpired) →
      kvLookup k (facadeLocal now cache L (rs, sent)).1 = some res ∧
      kvLookup k (facadeLocal now cache L (rs, sent)).2 = kvLookup k sent
  | [], _, _, _, hmem, _, _ => absurd hmem (List.not_mem_nil _)
  | (req, ts') :: rest, rs, sent, hwf, hmem, hcache, hc => by
    have hwf' : kvWF rest := (List.nodup_cons.mp hwf).2
    rcases List.mem_cons.mp hmem with h | h
    · rw [Prod.mk.injEq] at h
      obtain ⟨h1, h2⟩ := h
      subst h1
      subst h2
      have hknot : k ∉ kvKeys rest := (List.nodup_cons.mp hwf).1
      simp only [facadeLocal, hcache, if_neg hc]
      have hrec := facadeLocal_lookup_of_not_mem now cache rest (kvInsert k res rs) sent hknot
      rw [hrec.1, hrec.2]
      exact ⟨by simp, rfl⟩
    · have hkmem : k ∈ kvKeys rest := (mem_kvKeys_exists k rest).mpr ⟨ts, h⟩
      have hne : req ≠ k := fun hEq => (List.nodup_cons.mp hwf).1 (hEq ▸ hkmem)
      cases hcache' : kvLookup req cache with
      | some res' =>
        by_cases hc' : now > res'.validUntilTS ∧ res'.expiredTS = PublicKeyNotExpired
        · simp only [facadeLocal, hcache', if_pos hc']
          exact facadeLocal_lookup_hit_use now cache rest rs sent hwf' h hcache hc
        · simp only [facadeLocal, hcache', if_neg hc']
          exact facadeLocal_lookup_hit_use now cache rest (kvInsert req res' rs) sent hwf' h
            hcache hc
      | none =>
        simp only [facadeLocal, hcache']
        have hrec := facadeLocal_lookup_hit_use now cache rest rs (kvInsert req ts' sent)
          hwf' h hcache hc
        rw [hrec.1, hrec.2]
        exact ⟨rfl, by simp [hne]⟩

theorem facadeLocal_lookup_hit_skip (now : Timestamp) (cache : KVMap PublicKeyLookupResult)
    {k : PublicKeyLookupRequest} {ts : Timestamp} {res : PublicKeyLookupResult} :
    ∀ (L : List (PublicKeyLookupRequest × Timestamp))
      (rs : KVMap PublicKeyLookupResult) (sent : KVMap Timestamp),
      kvWF L → (k, ts) ∈ L → kvLookup k cache = some res →
      (now > res.validUntilTS ∧ res.expiredTS = PublicKeyNotExpired) →
      kvLookup k (facadeLocal now cache L (rs, sent)).1 = kvLookup k rs ∧
      kvLookup k (facadeLocal now cache L (rs, sent)).2 = kvLookup k sent
  | [], _, _, _, hmem, _, _ => absurd hmem (List.not_mem_nil _)
  | (req, ts') :: rest, rs, sent, hwf, hmem, hcache, hc => by
    have hwf' : kvWF rest := (List.nodup_cons.mp hwf).2
    rcases List.mem_cons.mp hmem with h | h
    · rw [Prod.mk.injEq] at h
      obtain ⟨h1, h2⟩ := h
      subst h1
      subst h2
      have hknot : k ∉ kvKeys rest := (List.nodup_cons.mp hwf).1
      simp only [facadeLocal, hcache, if_pos hc]
      exact facadeLocal_lookup_of_not_mem now cache rest rs sent hknot
    · have hkmem : k ∈ kvKeys rest := (mem_kvKeys_exists k rest).mpr ⟨ts, h⟩
      have hne : req ≠ k := fun hEq => (List.nodup_cons.mp hwf).1 (hEq ▸ hkmem)
      cases hcache' : kvLookup req cache with
      | some res' =>
        by_cases hc' : now > res'.validUntilTS ∧ res'.expiredTS = PublicKeyNotExpired
        · simp only [facadeLocal, hcache', if_pos hc']
          exact facadeLocal_lookup_hit_skip now cache rest rs sent hwf' h hcache hc
        · simp only [facadeLocal, hcache', if_neg hc']
          have hrec := facadeLocal_lookup_hit_skip now cache rest (kvInsert req res' rs) sent
            hwf' h hcache hc
          rw [hrec.1, hrec.2]
          exact ⟨by simp [hne], rfl⟩
      | none =>
        simp only [facadeLocal, hcache']
        have hrec := facadeLocal_lookup_hit_skip now cache rest rs (kvInsert req ts' sent)
          hwf' h hcache hc
        rw [hrec.1, hrec.2]
        exact ⟨rfl, by simp [hne]⟩

theorem facadeLocal_lookup_miss (now : Timestamp) (cache : KVMap PublicKeyLookupResult)
    {k : PublicKeyLookupRequest} {ts : Timestamp} :
    ∀ (L : List (PublicKeyLookupRequest × Timestamp))
      (rs : KVMap PublicKeyLookupResult) (sent : KVMap Timestamp),
      kvWF L → (k, ts) ∈ L → kvLookup k cache = none →
      kvLookup k (facadeLocal now cache L (rs, sent)).1 = kvLookup k rs ∧
      kvLookup k (facadeLocal now cache L (rs, sent)).2 = some ts
  | [], _, _, _, hmem, _ => absurd hmem (List.not_mem_nil _)
  | (req, ts') :: rest, rs, sent, hwf, hmem, hcache => by
    have hwf' : kvWF rest := (List.nodup_cons.mp hwf).2
    rcases List.mem_cons.mp hmem with h | h
    · rw [Prod.mk.injEq] at h
      obtain ⟨h1, h2⟩ := h
      subst h1
      subst h2
      have hknot : k ∉ kvKeys rest := (List.nodup_cons.mp hwf).1
      simp only [facadeLocal, hcache]
      have hrec := facadeLocal_lookup_of_not_mem now cache rest rs (kvInsert k ts sent) hknot
      rw [hrec.1, hrec.2]
      exact ⟨rfl, by simp⟩
    · have hkmem : k ∈ kvKeys rest := (mem_kvKeys_exists k rest).mpr ⟨ts, h⟩
      have hne : req ≠ k := fun hEq => (List.nodup_cons.mp hwf).1 (hEq ▸ hkmem)
      cases hcache' : kvLookup req cache with
      | some res' =>
        by_cases hc' : now > res'.validUntilTS ∧ res'.expiredTS = PublicKeyNotExpired
        · simp only [facadeLocal, hcache', if_pos hc']
          exact facadeLocal_lookup_miss now cache rest rs sent hwf' h hcache
        · simp only [facadeLocal, hcache', if_neg hc']
          have hrec := facadeLocal_lookup_miss now cache rest (kvInsert req res' rs) sent
            hwf' h hcache
          rw [hrec.1, hrec.2]
          exact ⟨by simp [hne], rfl⟩
      | none =>
        simp only [facadeLocal, hcache']
        exact facadeLocal_lookup_miss now cache rest rs (kvInsert req ts' sent) hwf' h hcache

theorem mergeResponse_lookup_of_not_mem {k : PublicKeyLookupRequest} :
    ∀ (L : List (PublicKeyLookupRequest × PublicKeyLookupResult))
      (rs cs : KVMap PublicKeyLookupResult),
      k ∉ kvKeys L →
      kvLookup k (mergeResponse L (rs, cs)).1 = kvLookup k rs ∧
      kvLookup k (mergeResponse L (rs, cs)).2 = kvLookup k cs
  | [], _, _, _ => ⟨rfl, rfl⟩
  | (req, res) :: rest, rs, cs, h => by
    have hne : req ≠ k := fun hEq => h (by simp [kvKeys, hEq])
    have hk : k ∉ kvKeys rest := by
      intro hmem
      refine h ?_
      rw [kvKeys, List.map_cons, List.mem_cons]
      exact Or.inr hmem
    simp only [mergeResponse]
    have hrec := mergeResponse_lookup_of_not_mem rest (kvInsert req res rs)
      (kvInsert req res cs) hk
    rw [hrec.1, hrec.2]
    exact ⟨by simp [hne], by simp [hne]⟩

theorem mergeResponse_lookup_of_mem {k : PublicKeyLookupRequest}
    {res : PublicKeyLookupResult} :
    ∀ (L : List (PublicKeyLookupRequest × PublicKeyLookupResult))
      (rs cs : KVMap PublicKeyLookupResult),
      kvWF L → (k, res) ∈ L →
      kvLookup k (mergeResponse L (rs, cs)).1 = some res ∧
      kvLookup k (mergeResponse L (rs, cs)).2 = some res
  | [], _, _, _, hmem => absurd hmem (List.not_mem_nil _)
  | (req, res') :: rest, rs, cs, hwf, hmem => by
    have hwf' : kvWF rest := (List.nodup_cons.mp hwf).2
    rcases List.mem_cons.mp hmem with h | h
    · rw [Prod.mk.injEq] at h
      obtain ⟨h1, h2⟩ := h
      subst h1
      subst h2
      have hknot : k ∉ kvKeys rest := (List.nodup_cons.mp hwf).1
      simp only [mergeResponse]
      have hrec := mergeResponse_lookup_of_not_mem rest (kvInsert k res rs)
        (kvInsert k res cs) hknot
      rw [hrec.1, hrec.2]
      exact ⟨by simp, by simp⟩
    · simp only [mergeResponse]
      exact mergeResponse_lookup_of_mem rest (kvInsert req res' rs)
        (kvInsert req res' cs) hwf' h



theorem runFetchers_isEmpty (db : KeyDB) (fs : List Fetcher)
    (rs : KVMap PublicKeyLookupResult) (qs : KVMap Timestamp) (hq : qs.isEmpty = true) :
    runFetchers db fs rs qs = ⟨some rs, none, qs, db, []⟩ := by
  cases fs <;> simp [runFetchers, finishFetch, hq]

theorem runFetchers_err_step (db : KeyDB) (f : Fetcher) (fs : List Fetcher)
    (rs : KVMap PublicKeyLookupResult) {qs : KVMap Timestamp}
    (hq : qs.isEmpty = false) (hf : f qs = none) :
    runFetchers db (f :: fs) rs qs =
      { runFetchers db fs rs qs with trace := (f, qs) :: (runFetchers db fs rs qs).trace } := by
  simp [runFetchers, hq, hf]

theorem runFetchers_success_step (db : KeyDB) (f : Fetcher) (fs : List Fetcher)
    (rs : KVMap PublicKeyLookupResult) {qs : KVMap Timestamp}
    {fr : KVMap PublicKeyLookupResult}
    (hq : qs.isEmpty = false) (hf : f qs = some fr) (hw : db.writeFails = false) :
    runFetchers db (f :: fs) rs qs =
      (let db2 : KeyDB := { db with entries := upsertAll fr db.entries }
       let st := addFetcherResults fr (rs, qs)
       let o := runFetchers db2 fs st.1 st.2
       { o with trace := (f, qs) :: o.trace }) := by
  simp [runFetchers, hq, hf, dbStoreKeys, hw]

theorem runFetchers_storefail_step (db : KeyDB) (f : Fetcher) (fs : List Fetcher)
    (rs : KVMap PublicKeyLookupResult) {qs : KVMap Timestamp}
    {fr : KVMap PublicKeyLookupResult}
    (hq : qs.isEmpty = false) (hf : f qs = some fr) (hw : db.writeFails = true) :
    runFetchers db (f :: fs) rs qs =
      ⟨none, some .storeFailed, (addFetcherResults fr (rs, qs)).2, db, [(f, qs)]⟩ := by
  simp [runFetchers, hq, hf, dbStoreKeys, hw]

theorem runFetchers_trace_head (db : KeyDB) (f : Fetcher) (fs : List Fetcher)
    (rs : KVMap PublicKeyLookupResult) {qs : KVMap Timestamp} (hq : qs.isEmpty = false) :
    (runFetchers db (f :: fs) rs qs).trace.head? = some (f, qs) := by
  cases hf : f qs with
  | none =>
    rw [runFetchers_err_step db f fs rs hq hf]
    rfl
  | some fr =>
    cases hw : db.writeFails with
    | false =>
      rw [runFetchers_success_step db f fs rs hq hf hw]
      rfl
    | true =>
      rw [runFetchers_storefail_step db f fs rs hq hf hw]
      rfl

theorem runFetchers_trace_sublist :
    ∀ (fs : List Fetcher) (db : KeyDB) (rs : KVMap PublicKeyLookupResult)
      (qs : KVMap Timestamp),
      List.Sublist ((runFetchers db fs rs qs).trace.map Prod.fst) fs
  | [], db, rs, qs => by
    show List.Sublist ((finishFetch db rs qs).trace.map Prod.fst) []
    unfold finishFetch
    split <;> simp
  | f :: fs, db, rs, qs => by
    cases hq : qs.isEmpty with
    | true =>
      rw [runFetchers_isEmpty db (f :: fs) rs qs hq]
      simp
    | false =>
      cases hf : f qs with
      | none =>
        rw [runFetchers_err_step db f fs rs hq hf]
        exact List.Sublist.cons₂ f (runFetchers_trace_sublist fs db rs qs)
      | some fr =>
        cases hw : db.writeFails with
        | true =>
          rw [runFetchers_storefail_step db f fs rs hq hf hw]
          exact List.Sublist.cons₂ f (List.nil_sublist fs)
        | false =>
          rw [runFetchers_success_step db f fs rs hq hf hw]
          exact List.Sublist.cons₂ f (runFetchers_trace_sublist fs _ _ _)

theorem finishFetch_results (db : KeyDB) (rs : KVMap PublicKeyLookupResult)
    (qs : KVMap Timestamp) :
    (finishFetch db rs qs).results = some rs ∧ (finishFetch db rs qs).requests = qs ∧
    (finishFetch db rs qs).trace = [] := by
  unfold finishFetch
  split <;> exact ⟨rfl, rfl, rfl⟩

theorem runFetchers_spec_err :
    ∀ (fs : List Fetcher) (db : KeyDB) (rs : KVMap PublicKeyLookupResult)
      (qs : KVMap Timestamp), db.writeFails = false →
      (runFetchers db fs rs qs).fetchError =
        (if (runFetchers db fs rs qs).requests.isEmpty then none
         else some (.fetchFailed (runFetchers db fs rs qs).requests.length))
  | [], db, rs, qs, _ => by
    show (finishFetch db rs qs).fetchError =
      (if (finishFetch db rs qs).requests.isEmpty then none
       else some (.fetchFailed (finishFetch db rs qs).requests.length))
    have hreq : (finishFetch db rs qs).requests = qs := (finishFetch_results db rs qs).2.1
    rw [hreq]
    unfold finishFetch
    by_cases hq : qs.isEmpty
    · simp [hq]
    · simp [hq]
  | f :: fs, db, rs, qs, hw => by
    cases hq : qs.isEmpty with
    | true =>
      rw [runFetchers_isEmpty db (f :: fs) rs qs hq]
      simp [hq]
    | false =>
      cases hf : f qs with
      | none =>
        rw [runFetchers_err_step db f fs rs hq hf]
        exact runFetchers_spec_err fs db rs qs hw
      | some fr =>
        rw [runFetchers_success_step db f fs rs hq hf hw]
        exact runFetchers_spec_err fs { db with entries := upsertAll fr db.entries }
          (addFetcherResults fr (rs, qs)).1 (addFetcherResults fr (rs, qs)).2 hw

theorem resolvedSplit_step {init : List PublicKeyLookupRequest}
    {rs : KVMap PublicKeyLookupResult} {qs : KVMap Timestamp}
    (h : ResolvedSplit init rs qs) (k' : PublicKeyLookupRequest)
    (v : PublicKeyLookupResult) :
    ResolvedSplit init (kvInsert k' v rs) (kvErase k' qs) := by
  obtain ⟨h1, h2, h3⟩ := h
  refine ⟨?_, ?_, ?_⟩
  · intro k hk
    exact h1 k ((mem_kvKeys_kvErase k k' qs).mp hk).2
  · intro k hk hkq
    have hkq' := (mem_kvKeys_kvErase k k' qs).mp hkq
    rcases (mem_kvKeys_kvInsert k k' v rs).mp hk with hEq | hmem
    · exact hkq'.1 hEq
    · exact h2 k ((mem_kvKeys_kvErase k k' rs).mp hmem).2 hkq'.2
  · intro k hk
    by_cases hkk : k = k'
    · exact Or.inr ((mem_kvKeys_kvInsert k k' v rs).mpr (Or.inl hkk))
    · rcases h3 k hk with hq | hr
      · exact Or.inl ((mem_kvKeys_kvErase k k' qs).mpr ⟨hkk, hq⟩)
      · exact Or.inr ((mem_kvKeys_kvInsert k k' v rs).mpr
          (Or.inr ((mem_kvKeys_kvErase k k' rs).mpr ⟨hkk, hr⟩)))

theorem addDBResults_resolvedSplit {init : List PublicKeyLookupRequest} (now : Timestamp) :
    ∀ (L : List (PublicKeyLookupRequest × PublicKeyLookupResult))
      (rs : KVMap PublicKeyLookupResult) (qs : KVMap Timestamp),
      ResolvedSplit init rs qs →
      ResolvedSplit init (addDBResults now L (rs, qs)).1 (addDBResults now L (rs, qs)).2
  | [], _, _, h => h
  | (req, res) :: rest, rs, qs, h => by
    by_cases hc : now > res.validUntilTS ∧ res.expiredTS = PublicKeyNotExpired
    · simp only [addDBResults, if_pos hc]
      exact addDBResults_resolvedSplit now rest rs qs h
    · simp only [addDBResults, if_neg hc]
      exact addDBResults_resolvedSplit now rest _ _ (resolvedSplit_step h req res)

theorem addFetcherResults_resolvedSplit {init : List PublicKeyLookupRequest} :
    ∀ (L : List (PublicKeyLookupRequest × PublicKeyLookupResult))
      (rs : KVMap PublicKeyLookupResult) (qs : KVMap Timestamp),
      ResolvedSplit init rs qs →
      ResolvedSplit init (addFetcherResults L (rs, qs)).1 (addFetcherResults L (rs, qs)).2
  | [], _, _, h => h
  | (req, res) :: rest, rs, qs, h => by
    simp only [addFetcherResults]
    exact addFetcherResults_resolvedSplit rest _ _ (resolvedSplit_step h req res)

theorem runFetchers_results_resolvedSplit {init : List PublicKeyLookupRequest} :
    ∀ (fs : List Fetcher) (db : KeyDB) (rs : KVMap PublicKeyLookupResult)
      (qs : KVMap Timestamp),
      db.writeFails = false → ResolvedSplit init rs qs →
      ∃ out, (runFetchers db fs rs qs).results = some out ∧
        ResolvedSplit init out (runFetchers db fs rs qs).requests
  | [], db, rs, qs, _, h => by
    have hs := finishFetch_results db rs qs
    exact ⟨rs, hs.1, by rw [show ((runFetchers db [] rs qs).requests = qs) from hs.2.1]; exact h⟩
  | f :: fs, db, rs, qs, hw, h => by
    cases hq : qs.isEmpty with
    | true =>
      rw [runFetchers_isEmpty db (f :: fs) rs qs hq]
      exact ⟨rs, rfl, h⟩
    | false =>
      cases hf : f qs with
      | none =>
        rw [runFetchers_err_step db f fs rs hq hf]
        obtain ⟨out, ho, hsp⟩ := runFetchers_results_resolvedSplit fs db rs qs hw h
        exact ⟨out, ho, hsp⟩
      | some fr =>
        rw [runFetchers_success_step db f fs rs hq hf hw]
        obtain ⟨out, ho, hsp⟩ := runFetchers_results_resolvedSplit fs
          { db with entries := upsertAll fr db.entries }
          (addFetcherResults fr (rs, qs)).1 (addFetcherResults fr (rs, qs)).2 hw
          (addFetcherResults_resolvedSplit fr rs qs h)
        exact ⟨out, ho, hsp⟩



/-! Claim theorems. -/

/-- Claim C9: for every pair of reference lists, the event builder truncation
returns the authorization references capped at at most 10 entries and the
preceding-event references capped at at most 20 entries, in both cases the
prefix of the input list in its original order; lists at or under the cap are
returned unchanged. -/
theorem truncateAuthAndPrevEventsCaps (auth prev : List EventReference) :
    (truncateAuthAndPrevEvents auth prev).1 = auth.take 10 ∧
    (truncateAuthAndPrevEvents auth prev).2 = prev.take 20 ∧
    (truncateAuthAndPrevEvents auth prev).1.length ≤ 10 ∧
    (truncateAuthAndPrevEvents auth prev).2.length ≤ 20 ∧
    List.IsPrefix (truncateAuthAndPrevEvents auth prev).1 auth ∧
    List.IsPrefix (truncateAuthAndPrevEvents auth prev).2 prev ∧
    (auth.length ≤ 10 → (truncateAuthAndPrevEvents auth prev).1 = auth) ∧
    (prev.length ≤ 20 → (truncateAuthAndPrevEvents auth prev).2 = prev) := by
  have h1 : (truncateAuthAndPrevEvents auth prev).1 = auth.take 10 := by
    show (if auth.length > 10 then auth.take 10 else auth) = auth.take 10
    by_cases h : auth.length > 10
    · rw [if_pos h]
    · rw [if_neg h, List.take_of_length_le (Nat.le_of_not_lt h)]
  have h2 : (truncateAuthAndPrevEvents auth prev).2 = prev.take 20 := by
    show (if prev.length > 20 then prev.take 20 else prev) = prev.take 20
    by_cases h : prev.length > 20
    · rw [if_pos h]
    · rw [if_neg h, List.take_of_length_le (Nat.le_of_not_lt h)]
  refine ⟨h1, h2, ?_, ?_, ?_, ?_, ?_, ?_⟩
  · rw [h1]
    exact List.length_take_le 10 auth
  · rw [h2]
    exact List.length_take_le 20 prev
  · rw [h1]
    exact List.take_prefix 10 auth
  · rw [h2]
    exact List.take_prefix 20 prev
  · intro h
    rw [h1]
    exact List.take_of_length_le h
  · intro h
    rw [h2]
    exact List.take_of_length_le h

/-- Witness for C9 at a concrete pair of lists. -/
theorem truncateAuthAndPrevEventsCaps_witness :
    ([sampleRef] : List EventReference).length ≤ 10 ∧
    (truncateAuthAndPrevEvents [sampleRef] [sampleRef]).1 = [sampleRef] :=
  ⟨by decide, (truncateAuthAndPrevEventsCaps [sampleRef] [sampleRef]).2.2.2.2.2.2.1
    (by decide)⟩

/-- Claim C7: the Key Ring StoreKeys and FetchKeys and the facade StoreKeys
bind the caller's context to the underscore and run on a background context,
so any two caller contexts — including an already-cancelled one — produce
identical results and identical writes. -/
theorem contextIndependence (c c' : Ctx) (s : KeyRing) (now : Timestamp)
    (requests : KVMap Timestamp) (results : KVMap PublicKeyLookupResult)
    (remoteStore : KVMap PublicKeyLookupResult → Option Unit)
    (cache : KVMap PublicKeyLookupResult) :
    fetchKeys c s now requests = fetchKeys c' s now requests ∧
    storeKeys c s results = storeKeys c' s results ∧
    facadeStoreKeys c remoteStore cache results =
      facadeStoreKeys c' remoteStore cache results :=
  ⟨rfl, rfl, rfl⟩

/-- Claim C2 fails on the code: with a stale cache entry for `sampleReq`
carrying the not-expired sentinel, the facade FetchKeys at T=150 forwards an
empty remote batch — the identifier is silently dropped rather than included
for re-resolution — and the output holds no entry for it. -/
theorem facadeDropsStaleKey :
    (facadeFetchKeys backgroundCtx (fun _ => some []) 150 [(sampleReq, sampleRes)]
        [(sampleReq, 150)]).sent = [] ∧
    (facadeFetchKeys backgroundCtx (fun _ => some []) 150 [(sampleReq, sampleRes)]
        [(sampleReq, 150)]).result = some [] :=
  ⟨rfl, rfl⟩

/-- Claim C4: fetchers are consulted strictly in configured order (the trace of
invocations is an order-preserving sublist of the fetcher list), nothing is
invoked once the outstanding set is empty, the first fetcher receives exactly
the current outstanding set, and a fetcher error contributes no results — the
run continues exactly as if that fetcher had not existed, apart from the
recorded invocation. -/
theorem fetcherWaterfallOrder :
    (∀ (fs : List Fetcher) (db : KeyDB) (rs : KVMap PublicKeyLookupResult)
        (qs : KVMap Timestamp),
      List.Sublist ((runFetchers db fs rs qs).trace.map Prod.fst) fs) ∧
    (∀ (db : KeyDB) (f : Fetcher) (fs : List Fetcher)
        (rs : KVMap PublicKeyLookupResult) (qs : KVMap Timestamp),
      qs.isEmpty = true → (runFetchers db (f :: fs) rs qs).trace = []) ∧
    (∀ (db : KeyDB) (f : Fetcher) (fs : List Fetcher)
        (rs : KVMap PublicKeyLookupResult) (qs : KVMap Timestamp),
      qs.isEmpty = false →
      (runFetchers db (f :: fs) rs qs).trace.head? = some (f, qs)) ∧
    (∀ (db : KeyDB) (f : Fetcher) (fs : List Fetcher)
        (rs : KVMap PublicKeyLookupResult) (qs : KVMap Timestamp),
      qs.isEmpty = false → f qs = none →
      runFetchers db (f :: fs) rs qs =
        { runFetchers db fs rs qs with
            trace := (f, qs) :: (runFetchers db fs rs qs).trace }) := by
  refine ⟨?_, ?_, ?_, ?_⟩
  · exact fun fs db rs qs => runFetchers_trace_sublist fs db rs qs
  · intro db f fs rs qs hq
    rw [runFetchers_isEmpty db (f :: fs) rs qs hq]
  · intro db f fs rs qs hq
    exact runFetchers_trace_head db f fs rs hq
  · intro db f fs rs qs hq hf
    exact runFetchers_err_step db f fs rs hq hf

/-- Witness for C4: a failing fetcher leaves the run identical to one without
it, apart from the recorded invocation. -/
theorem fetcherWaterfallOrder_witness :
    runFetchers sampleDB [failingFetcher] [] [(sampleReq, 150)] =
      { runFetchers sampleDB [] [] [(sampleReq, 150)] with
          trace := (failingFetcher, [(sampleReq, 150)]) ::
            (runFetchers sampleDB [] [] [(sampleReq, 150)]).trace } :=
  fetcherWaterfallOrder.2.2.2 sampleDB failingFetcher [] [] [(sampleReq, 150)] rfl rfl

/-- Claim C5: a successful fetcher's results are persisted to the store before
the next fetcher runs (the remaining waterfall operates on the upserted
database); a failed initial store read is non-fatal, the whole batch falling
through to the fetchers; and a failed mid-waterfall store write surfaces as a
hard error distinct from every unresolved-keys error. -/
theorem fetcherPersistence :
    (∀ (db : KeyDB) (f : Fetcher) (fs : List Fetcher)
        (rs : KVMap PublicKeyLookupResult) (qs : KVMap Timestamp)
        (fr : KVMap PublicKeyLookupResult),
      qs.isEmpty = false → f qs = some fr → db.writeFails = false →
      runFetchers db (f :: fs) rs qs =
        (let db2 : KeyDB := { db with entries := upsertAll fr db.entries }
         let st := addFetcherResults fr (rs, qs)
         let o := runFetchers db2 fs st.1 st.2
         { o with trace := (f, qs) :: o.trace })) ∧
    (∀ (c : Ctx) (s : KeyRing) (now : Timestamp) (requests : KVMap Timestamp),
      s.keyDatabase.readFails = true →
      fetchKeys c s now requests =
        runFetchers s.keyDatabase s.keyFetchers [] requests) ∧
    (∀ (db : KeyDB) (f : Fetcher) (fs : List Fetcher)
        (rs : KVMap PublicKeyLookupResult) (qs : KVMap Timestamp)
        (fr : KVMap PublicKeyLookupResult),
      qs.isEmpty = false → f qs = some fr → db.writeFails = true →
      runFetchers db (f :: fs) rs qs =
        ⟨none, some .storeFailed, (addFetcherResults fr (rs, qs)).2, db, [(f, qs)]⟩) ∧
    (∀ n, KeyFetchError.storeFailed ≠ KeyFetchError.fetchFailed n) := by
  refine ⟨?_, ?_, ?_, ?_⟩
  · intro db f fs rs qs fr hq hf hw
    exact runFetchers_success_step db f fs rs hq hf hw
  · intro c s now requests h
    show runFetchers s.keyDatabase s.keyFetchers (dbPhase s.keyDatabase now requests).1
        (dbPhase s.keyDatabase now requests).2 = _
    have hphase : dbPhase s.keyDatabase now requests = ([], requests) := by
      simp [dbPhase, dbFetchKeys, h]
    rw [hphase]
  · intro db f fs rs qs fr hq hf hw
    exact runFetchers_storefail_step db f fs rs hq hf hw
  · intro n h
    cases h

/-- Witness for C5: a read-failing store falls through to the fetchers with
every request outstanding. -/
theorem fetcherPersistence_witness :
    fetchKeys backgroundCtx ⟨⟨[(sampleReq, sampleRes)], true, false⟩, []⟩ 50
        [(sampleReq, 50)] =
      runFetchers ⟨[(sampleReq, sampleRes)], true, false⟩ [] [] [(sampleReq, 50)] :=
  fetcherPersistence.2.1 backgroundCtx ⟨⟨[(sampleReq, sampleRes)], true, false⟩, []⟩ 50
    [(sampleReq, 50)] rfl



theorem validity_iff (now : Timestamp) (res : PublicKeyLookupResult) :
    (¬ (now > res.validUntilTS ∧ res.expiredTS = PublicKeyNotExpired)) ↔
      (res.expiredTS ≠ PublicKeyNotExpired ∨ now ≤ res.validUntilTS) := by
  constructor
  · intro h
    by_cases he : res.expiredTS = PublicKeyNotExpired
    · right
      by_contra hlt
      exact h ⟨Nat.lt_of_not_le hlt, he⟩
    · exact Or.inl he
  · rintro (he | hle) ⟨hgt, heq⟩
    · exact he heq
    · exact absurd hgt (Nat.not_lt.mpr hle)

theorem dbPhase_addDB (db : KeyDB) (now : Timestamp) (requests : KVMap Timestamp)
    (hrf : db.readFails = false) :
    dbPhase db now requests =
      addDBResults now (db.entries.filter (fun p => (kvLookup p.1 requests).isSome))
        ([], requests) := by
  simp [dbPhase, dbFetchKeys, hrf]

/-- Claim C1: in both the Key Ring store-consultation phase and the facade
local-cache phase, a consulted result is added to the output if and only if
its expiry marker is an explicit timestamp or the current time is not past its
`ValidUntilTS`; in particular an explicitly expired result is returned even
when the current time is past `ValidUntilTS`. -/
theorem fetchKeysValidityInvariant :
    (∀ (db : KeyDB) (now : Timestamp) (requests : KVMap Timestamp)
        (k : PublicKeyLookupRequest) (res : PublicKeyLookupResult),
      db.readFails = false → kvWF db.entries →
      kvLookup k db.entries = some res → k ∈ kvKeys requests →
      (kvLookup k (dbPhase db now requests).1 = some res ↔
        (res.expiredTS ≠ PublicKeyNotExpired ∨ now ≤ res.validUntilTS))) ∧
    (∀ (now : Timestamp) (cache : KVMap PublicKeyLookupResult)
        (requests : KVMap Timestamp) (k : PublicKeyLookupRequest)
        (ts : Timestamp) (res : PublicKeyLookupResult),
      kvWF requests → (k, ts) ∈ requests → kvLookup k cache = some res →
      (kvLookup k (facadeLocal now cache requests ([], [])).1 = some res ↔
        (res.expiredTS ≠ PublicKeyNotExpired ∨ now ≤ res.validUntilTS))) := by
  constructor
  · intro db now requests k res hrf hwf hlk hkreq
    rw [dbPhase_addDB db now requests hrf]
    have hwfL : kvWF (db.entries.filter (fun p => (kvLookup p.1 requests).isSome)) :=
      List.Nodup.sublist ((List.filter_sublist _).map Prod.fst) hwf
    have hlkL : kvLookup k (db.entries.filter (fun p => (kvLookup p.1 requests).isSome)) =
        some res := by
      rw [kvLookup_filter _ hwf k, hlk]
      have hks : (kvLookup k requests).isSome := (mem_kvKeys_iff k requests).mp hkreq
      simp [hks]
    have hmemL := mem_of_kvLookup_eq_some hlkL
    constructor
    · intro hout
      rw [← validity_iff]
      intro hc
      have hskip := addDBResults_lookup_of_mem_skip now _ [] requests hwfL hmemL hc
      rw [hskip.1] at hout
      cases hout
    · intro hcond
      have hc := (validity_iff now res).mpr hcond
      exact (addDBResults_lookup_of_mem_use now _ [] requests hwfL hmemL hc).1
  · intro now cache requests k ts res hwf hmem hcache
    constructor
    · intro hout
      rw [← validity_iff]
      intro hc
      have hskip := facadeLocal_lookup_hit_skip now cache requests [] [] hwf hmem hcache hc
      rw [hskip.1] at hout
      cases hout
    · intro hcond
      have hc := (validity_iff now res).mpr hcond
      exact (facadeLocal_lookup_hit_use now cache requests [] [] hwf hmem hcache hc).1

/-- Witness for C1: the stale-but-explicitly-expired sample result is served
from the store phase at T=150. -/
theorem fetchKeysValidityInvariant_witness :
    kvLookup sampleReq
        (dbPhase ⟨[(sampleReq, sampleExpiredRes)], false, false⟩ 150
          [(sampleReq, 150)]).1 = some sampleExpiredRes :=
  (fetchKeysValidityInvariant.1 ⟨[(sampleReq, sampleExpiredRes)], false, false⟩ 150
      [(sampleReq, 150)] sampleReq sampleExpiredRes rfl (by decide) (by decide)
      (by decide)).mpr (by decide)

theorem dbPhase_resolvedSplit (db : KeyDB) (now : Timestamp)
    (requests : KVMap Timestamp) :
    ResolvedSplit (kvKeys requests) (dbPhase db now requests).1
      (dbPhase db now requests).2 := by
  have h0 : ResolvedSplit (kvKeys requests) [] requests :=
    ⟨fun _ hk => hk, fun k hk => absurd hk (by simp [kvKeys]), fun _ hk => Or.inl hk⟩
  cases hdb : dbFetchKeys db requests with
  | none => simpa [dbPhase, hdb] using h0
  | some L => simpa [dbPhase, hdb] using addDBResults_resolvedSplit now L [] requests h0

theorem fetchKeys_resolvedSplit (c : Ctx) (s : KeyRing) (now : Timestamp)
    (requests : KVMap Timestamp) (hw : s.keyDatabase.writeFails = false) :
    ∃ out, (fetchKeys c s now requests).results = some out ∧
      ResolvedSplit (kvKeys requests) out (fetchKeys c s now requests).requests :=
  runFetchers_results_resolvedSplit s.keyFetchers s.keyDatabase
    (dbPhase s.keyDatabase now requests).1 (dbPhase s.keyDatabase now requests).2 hw
    (dbPhase_resolvedSplit s.keyDatabase now requests)

/-- Claim C3: when the store write is reliable, `FetchKeys` returns the partial
batch containing every identifier it resolved, no error when nothing remains
outstanding, and otherwise an error counting exactly the unresolved
identifiers. -/
theorem fetchKeysPartialFailure (c : Ctx) (s : KeyRing) (now : Timestamp)
    (requests : KVMap Timestamp) (hw : s.keyDatabase.writeFails = false) :
    (∃ out, (fetchKeys c s now requests).results = some out ∧
      ∀ k, k ∈ kvKeys requests →
        k ∉ kvKeys (fetchKeys c s now requests).requests → k ∈ kvKeys out) ∧
    ((fetchKeys c s now requests).requests = [] →
      (fetchKeys c s now requests).fetchError = none) ∧
    ((fetchKeys c s now requests).requests ≠ [] →
      (fetchKeys c s now requests).fetchError =
        some (.fetchFailed (fetchKeys c s now requests).requests.length)) := by
  obtain ⟨out, ho, h1, h2, h3⟩ := fetchKeys_resolvedSplit c s now requests hw
  have herr : (fetchKeys c s now requests).fetchError =
      (if (fetchKeys c s now requests).requests.isEmpty then none
       else some (.fetchFailed (fetchKeys c s now requests).requests.length)) :=
    runFetchers_spec_err s.keyFetchers s.keyDatabase
      (dbPhase s.keyDatabase now requests).1 (dbPhase s.keyDatabase now requests).2 hw
  refine ⟨⟨out, ho, ?_⟩, ?_, ?_⟩
  · intro k hkreq hknot
    rcases h3 k hkreq with hq | hr
    · exact absurd hq hknot
    · exact hr
  · intro hnil
    rw [herr]
    have : (fetchKeys c s now requests).requests.isEmpty = true := by
      rw [hnil]
      rfl
    rw [this]
    rfl
  · intro hne
    rw [herr]
    have : (fetchKeys c s now requests).requests.isEmpty = false := by
      cases hreq : (fetchKeys c s now requests).requests
      · exact absurd hreq hne
      · rfl
    rw [this]
    rfl

/-- Witness for C3: with an empty fetcher list and a stale store entry, the
single request stays unresolved and the error reports a count of one. -/
theorem fetchKeysPartialFailure_witness :
    (fetchKeys backgroundCtx ⟨sampleDB, []⟩ 150 [(sampleReq, 150)]).fetchError =
      some (.fetchFailed
        (fetchKeys backgroundCtx ⟨sampleDB, []⟩ 150 [(sampleReq, 150)]).requests.length) :=
  (fetchKeysPartialFailure backgroundCtx ⟨sampleDB, []⟩ 150 [(sampleReq, 150)] rfl).2.2
    (by decide)

/-- Claim C10: `FetchKeys` mutates the caller's requests map in place, deleting
every satisfied identifier, so afterwards it holds exactly the unresolved
identifiers — empty on full success. -/
theorem fetchKeysConsumesRequests (c : Ctx) (s : KeyRing) (now : Timestamp)
    (requests : KVMap Timestamp) (hw : s.keyDatabase.writeFails = false) :
    ∃ out, (fetchKeys c s now requests).results = some out ∧
      (∀ k, k ∈ kvKeys (fetchKeys c s now requests).requests ↔
        (k ∈ kvKeys requests ∧ k ∉ kvKeys out)) ∧
      ((fetchKeys c s now requests).fetchError = none →
        (fetchKeys c s now requests).requests = []) := by
  obtain ⟨out, ho, h1, h2, h3⟩ := fetchKeys_resolvedSplit c s now requests hw
  have herr : (fetchKeys c s now requests).fetchError =
      (if (fetchKeys c s now requests).requests.isEmpty then none
       else some (.fetchFailed (fetchKeys c s now requests).requests.length)) :=
    runFetchers_spec_err s.keyFetchers s.keyDatabase
      (dbPhase s.keyDatabase now requests).1 (dbPhase s.keyDatabase now requests).2 hw
  refine ⟨out, ho, ?_, ?_⟩
  · intro k
    constructor
    · intro hk
      refine ⟨h1 k hk, ?_⟩
      intro hkout
      exact h2 k hkout hk
    · rintro ⟨hkreq, hkout⟩
      rcases h3 k hkreq with hq | hr
      · exact hq
      · exact absurd hr hkout
  · intro hnone
    by_contra hne
    have hfalse : (fetchKeys c s now requests).requests.isEmpty = false := by
      cases hreq : (fetchKeys c s now requests).requests
      · exact absurd hreq hne
      · rfl
    rw [herr, hfalse] at hnone
    cases hnone

/-- Witness for C10: a fetcher resolves the stale identifier, leaving the
caller's map empty. -/
theorem fetchKeysConsumesRequests_witness :
    ∃ out, (fetchKeys backgroundCtx ⟨sampleDB, [sampleFetcher]⟩ 150
        [(sampleReq, 150)]).results = some out ∧
      (∀ k, k ∈ kvKeys (fetchKeys backgroundCtx ⟨sampleDB, [sampleFetcher]⟩ 150
          [(sampleReq, 150)]).requests ↔
        (k ∈ kvKeys [(sampleReq, (150 : Timestamp))] ∧ k ∉ kvKeys out)) ∧
      ((fetchKeys backgroundCtx ⟨sampleDB, [sampleFetcher]⟩ 150
          [(sampleReq, 150)]).fetchError = none →
        (fetchKeys backgroundCtx ⟨sampleDB, [sampleFetcher]⟩ 150
          [(sampleReq, 150)]).requests = []) :=
  fetchKeysConsumesRequests backgroundCtx ⟨sampleDB, [sampleFetcher]⟩ 150
    [(sampleReq, 150)] rfl



theorem facadeFetchKeys_eq (c : Ctx)
    (remote : KVMap Timestamp → Option (KVMap PublicKeyLookupResult))
    (now : Timestamp) (cache : KVMap PublicKeyLookupResult)
    (requests : KVMap Timestamp) :
    facadeFetchKeys c remote now cache requests =
      match remote (facadeLocal now cache requests ([], [])).2 with
      | none => ⟨none, cache, (facadeLocal now cache requests ([], [])).2⟩
      | some resp =>
        ⟨some (mergeResponse resp ((facadeLocal now cache requests ([], [])).1, cache)).1,
         (mergeResponse resp ((facadeLocal now cache requests ([], [])).1, cache)).2,
         (facadeLocal now cache requests ([], [])).2⟩ := rfl

theorem facadeFetchKeys_sent (c : Ctx)
    (remote : KVMap Timestamp → Option (KVMap PublicKeyLookupResult))
    (now : Timestamp) (cache : KVMap PublicKeyLookupResult)
    (requests : KVMap Timestamp) :
    (facadeFetchKeys c remote now cache requests).sent =
      (facadeLocal now cache requests ([], [])).2 := by
  rw [facadeFetchKeys_eq]
  cases remote (facadeLocal now cache requests ([], [])).2 <;> rfl

/-- Claim C6: an identifier whose cache entry satisfies the validity invariant
is answered from the cache and never forwarded remotely; every result of the
remote call is written into the cache unconditionally and merged into the
output. -/
theorem facadeCacheDiscipline (c : Ctx)
    (remote : KVMap Timestamp → Option (KVMap PublicKeyLookupResult))
    (now : Timestamp) (cache : KVMap PublicKeyLookupResult)
    (requests : KVMap Timestamp) :
    (∀ (k : PublicKeyLookupRequest) (ts : Timestamp) (res : PublicKeyLookupResult),
      kvWF requests → (k, ts) ∈ requests → kvLookup k cache = some res →
      (res.expiredTS ≠ PublicKeyNotExpired ∨ now ≤ res.validUntilTS) →
      k ∉ kvKeys (facadeFetchKeys c remote now cache requests).sent ∧
      (∀ resp out,
        remote (facadeFetchKeys c remote now cache requests).sent = some resp →
        (facadeFetchKeys c remote now cache requests).result = some out →
        k ∉ kvKeys resp → kvLookup k out = some res)) ∧
    (∀ (resp out : KVMap PublicKeyLookupResult) (k : PublicKeyLookupRequest)
        (res : PublicKeyLookupResult),
      remote (facadeFetchKeys c remote now cache requests).sent = some resp →
      (facadeFetchKeys c remote now cache requests).result = some out →
      kvWF resp → (k, res) ∈ resp →
      kvLookup k out = some res ∧
      kvLookup k (facadeFetchKeys c remote now cache requests).cache = some res) := by
  constructor
  · intro k ts res hwf hmem hcache hvalid
    have hc := (validity_iff now res).mpr hvalid
    have hloc := facadeLocal_lookup_hit_use now cache requests [] [] hwf hmem hcache hc
    constructor
    · intro hmemsent
      rw [facadeFetchKeys_sent] at hmemsent
      rw [mem_kvKeys_iff, hloc.2] at hmemsent
      cases hmemsent
    · intro resp out hresp hout hknot
      rw [facadeFetchKeys_sent] at hresp
      have hresult : (facadeFetchKeys c remote now cache requests).result =
          some (mergeResponse resp
            ((facadeLocal now cache requests ([], [])).1, cache)).1 := by
        rw [facadeFetchKeys_eq, hresp]
      rw [hresult] at hout
      injection hout with hout
      have hmr := mergeResponse_lookup_of_not_mem resp
        (facadeLocal now cache requests ([], [])).1 cache hknot
      rw [← hout, hmr.1, hloc.1]
  · intro resp out k res hresp hout hwfresp hmemresp
    rw [facadeFetchKeys_sent] at hresp
    have heq : facadeFetchKeys c remote now cache requests =
        ⟨some (mergeResponse resp
            ((facadeLocal now cache requests ([], [])).1, cache)).1,
         (mergeResponse resp ((facadeLocal now cache requests ([], [])).1, cache)).2,
         (facadeLocal now cache requests ([], [])).2⟩ := by
      rw [facadeFetchKeys_eq, hresp]
    rw [heq] at hout
    injection hout with hout
    have hmr := mergeResponse_lookup_of_mem resp
      (facadeLocal now cache requests ([], [])).1 cache hwfresp hmemresp
    constructor
    · rw [← hout, hmr.1]
    · rw [heq]
      exact hmr.2

/-- Witness for C6: a valid (explicitly expired) cache entry keeps its
identifier out of the remote batch. -/
theorem facadeCacheDiscipline_witness :
    sampleReq ∉ kvKeys ((facadeFetchKeys backgroundCtx (fun _ => some []) 150
        [(sampleReq, sampleExpiredRes)] [(sampleReq, 150)]).sent) :=
  ((facadeCacheDiscipline backgroundCtx (fun _ => some []) 150
      [(sampleReq, sampleExpiredRes)] [(sampleReq, 150)]).1 sampleReq 150
      sampleExpiredRes (by decide) (by decide) (by decide) (by decide)).1

theorem roundTripCore (c2 : Ctx) (db : KeyDB) (fetchers : List Fetcher) (now : Timestamp)
    (batch : KVMap PublicKeyLookupResult) (requests : KVMap Timestamp)
    (hwfb : kvWF batch) (hwfdb : kvWF db.entries) (hrf : db.readFails = false)
    (hdblk : ∀ k res, kvLookup k batch = some res → kvLookup k db.entries = some res)
    (hkeys : ∀ k, k ∈ kvKeys requests ↔ k ∈ kvKeys batch)
    (hvalid : ∀ k res, (k, res) ∈ batch → now ≤ res.validUntilTS) :
    (fetchKeys c2 ⟨db, fetchers⟩ now requests).fetchError = none ∧
    (fetchKeys c2 ⟨db, fetchers⟩ now requests).requests = [] ∧
    ∃ out, (fetchKeys c2 ⟨db, fetchers⟩ now requests).results = some out ∧
      ∀ k, kvLookup k out = kvLookup k batch := by
  have hwfL : kvWF (db.entries.filter (fun p => (kvLookup p.1 requests).isSome)) :=
    List.Nodup.sublist ((List.filter_sublist _).map Prod.fst) hwfdb
  have hnotmemL : ∀ k, kvLookup k batch = none →
      k ∉ kvKeys (db.entries.filter (fun p => (kvLookup p.1 requests).isSome)) := by
    intro k hkb hmem
    obtain ⟨v, hv⟩ := (mem_kvKeys_exists k _).mp hmem
    have hp := (List.mem_filter.mp hv).2
    have hkreq : k ∈ kvKeys requests := (mem_kvKeys_iff k requests).mpr hp
    have hkbatch : k ∈ kvKeys batch := (hkeys k).mp hkreq
    rw [mem_kvKeys_iff, hkb] at hkbatch
    cases hkbatch
  have hmemL : ∀ k res, kvLookup k batch = some res →
      (k, res) ∈ db.entries.filter (fun p => (kvLookup p.1 requests).isSome) := by
    intro k res hkb
    refine mem_of_kvLookup_eq_some ?_
    rw [kvLookup_filter _ hwfdb k, hdblk k res hkb]
    have hkreq : k ∈ kvKeys requests := (hkeys k).mpr
      ((mem_kvKeys_iff k batch).mpr (by rw [hkb]; rfl))
    have hs : (kvLookup k requests).isSome := (mem_kvKeys_iff k requests).mp hkreq
    simp [hs]
  have hphase := dbPhase_addDB db now requests hrf
  have hst1 : ∀ k, kvLookup k (dbPhase db now requests).1 = kvLookup k batch := by
    intro k
    rw [hphase]
    cases hkb : kvLookup k batch with
    | some res =>
      have husable : ¬ (now > res.validUntilTS ∧ res.expiredTS = PublicKeyNotExpired) := by
        rintro ⟨hgt, _⟩
        exact absurd hgt (Nat.not_lt.mpr (hvalid k res (mem_of_kvLookup_eq_some hkb)))
      exact (addDBResults_lookup_of_mem_use now _ [] requests hwfL (hmemL k res hkb)
        husable).1
    | none =>
      have hn := addDBResults_lookup_of_not_mem now _ [] requests (hnotmemL k hkb)
      rw [hn.1]
      rfl
  have hst2 : (dbPhase db now requests).2 = [] := by
    refine eq_nil_of_kvLookup_eq_none ?_
    intro k
    rw [hphase]
    cases hkb : kvLookup k batch with
    | some res =>
      have husable : ¬ (now > res.validUntilTS ∧ res.expiredTS = PublicKeyNotExpired) := by
        rintro ⟨hgt, _⟩
        exact absurd hgt (Nat.not_lt.mpr (hvalid k res (mem_of_kvLookup_eq_some hkb)))
      exact (addDBResults_lookup_of_mem_use now _ [] requests hwfL (hmemL k res hkb)
        husable).2
    | none =>
      have hn := (addDBResults_lookup_of_not_mem now _ [] requests (hnotmemL k hkb)).2
      rw [hn]
      have hnk : k ∉ kvKeys batch := by
        rw [mem_kvKeys_iff, hkb]
        simp
      have hnr : k ∉ kvKeys requests := fun hk => hnk ((hkeys k).mp hk)
      by_contra hne
      exact hnr ((mem_kvKeys_iff k requests).mpr (Option.isSome_iff_ne_none.mpr hne))
  have hfk : fetchKeys c2 ⟨db, fetchers⟩ now requests =
      runFetchers db fetchers (dbPhase db now requests).1
        (dbPhase db now requests).2 := rfl
  rw [hfk, hst2, runFetchers_isEmpty db fetchers _ [] rfl]
  exact ⟨rfl, rfl, (dbPhase db now requests).1, rfl, hst1⟩

/-- Claim C8: storing a batch and then fetching the same identifiers with a
valid-at timestamp at or before each result's `ValidUntilTS`, at a current time
not past it, returns exactly the stored results with no error. -/
theorem storeFetchRoundTrip (c c2 : Ctx) (s : KeyRing) (now : Timestamp)
    (batch : KVMap PublicKeyLookupResult) (requests : KVMap Timestamp) (db2 : KeyDB)
    (hwfb : kvWF batch) (hwfdb : kvWF s.keyDatabase.entries)
    (hrf : s.keyDatabase.readFails = false)
    (hstore : storeKeys c s batch = some db2)
    (hkeys : ∀ k, k ∈ kvKeys requests ↔ k ∈ kvKeys batch)
    (hvalid : ∀ k res, (k, res) ∈ batch → now ≤ res.validUntilTS)
    (hts : ∀ k ts res, kvLookup k requests = some ts →
      kvLookup k batch = some res → ts ≤ res.validUntilTS) :
    (fetchKeys c2 ⟨db2, s.keyFetchers⟩ now requests).fetchError = none ∧
    (fetchKeys c2 ⟨db2, s.keyFetchers⟩ now requests).requests = [] ∧
    ∃ out, (fetchKeys c2 ⟨db2, s.keyFetchers⟩ now requests).results = some out ∧
      ∀ k, kvLookup k out = kvLookup k batch := by
  cases hwr : s.keyDatabase.writeFails with
  | true =>
    rw [show storeKeys c s batch = none from by
      simp [storeKeys, dbStoreKeys, hwr]] at hstore
    cases hstore
  | false =>
    have hdb2 : db2 =
        { s.keyDatabase with entries := upsertAll batch s.keyDatabase.entries } := by
      rw [show storeKeys c s batch =
          some { s.keyDatabase with
                  entries := upsertAll batch s.keyDatabase.entries } from by
        simp [storeKeys, dbStoreKeys, hwr]] at hstore
      injection hstore with h
      exact h.symm
    subst hdb2
    exact roundTripCore c2 _ s.keyFetchers now batch requests hwfb
      (kvWF_upsertAll batch hwfdb) hrf
      (fun k res h => kvLookup_upsertAll_of_some batch _ hwfb h)
      hkeys hvalid

/-- Witness for C8: storing the sample result into an empty store and fetching
it back at T=50 returns it with no error. -/
theorem storeFetchRoundTrip_witness :
    (fetchKeys backgroundCtx ⟨sampleDB, []⟩ 50 [(sampleReq, 50)]).fetchError = none ∧
    (fetchKeys backgroundCtx ⟨sampleDB, []⟩ 50 [(sampleReq, 50)]).requests = [] ∧
    ∃ out, (fetchKeys backgroundCtx ⟨sampleDB, []⟩ 50 [(sampleReq, 50)]).results =
        some out ∧
      ∀ k, kvLookup k out = kvLookup k [(sampleReq, sampleRes)] :=
  storeFetchRoundTrip backgroundCtx backgroundCtx ⟨⟨[], false, false⟩, []⟩ 50
    [(sampleReq, sampleRes)] [(sampleReq, 50)] sampleDB (by decide) (by decide) rfl rfl
    (fun _ => Iff.rfl)
    (by
      intro k res h
      rw [List.mem_singleton, Prod.mk.injEq] at h
      rw [h.2]
      decide)
    (by
      intro k ts res h1 h2
      have m1 := mem_of_kvLookup_eq_some h1
      have m2 := mem_of_kvLookup_eq_some h2
      rw [List.mem_singleton, Prod.mk.injEq] at m1 m2
      rw [m1.2, m2.2]
      decide)


end Dendrite
